import Mathlib

/-!
Verification of the MuleCatcher AML engine (`backend/main.py`) against its
specification.  The orchestration layer (`analyze` in `backend/main.py`) is
embedded from the source.  The detector modules it imports
(`detectors.graph_builder`, `detectors.cycle_detector`,
`detectors.shell_detector`, `detectors.smurfing_detector`,
`detectors.ring_merger`, `detectors.scoring`, `detectors.validators`,
`detectors.refinement`) are not present in the repository snapshot; they are
modelled from the specification and marked as such.

Two effects of the Python code are made explicit parameters of the embedding:
the two wall-clock reads (`time.time()` at the start and end of `analyze`)
become the arguments `startTime`/`endTime`, and the interpreter's iteration
order over a Python `set` of strings (hash-randomized per process), used at
`list(patterns)` in `analyze`, becomes a linearisation function
`setOrder : List String → List String` applied to the canonical
insertion-order listing of each tag set.
-/

namespace MuleCatcher

/-- A validated transaction row: sender id, receiver id, amount, timestamp
(`backend/main.py` reads these from the uploaded CSV via pandas).  The
non-negative decimal amount is modelled in integer minor units, and the
timestamp as an integer instant; both carry the total order the spec
requires. -/
structure Row where
  sender : String
  receiver : String
  amount : Int
  timestamp : Int
deriving DecidableEq, Repr

/-- The parsed CSV table, an ordered sequence of rows. -/
abbrev DataFrame := List Row

/-- An upload to the `/analyze` endpoint: a filename and the result of
`pd.read_csv` on its content (`none` models a parse failure, the
`except` branch of `backend/main.py`). -/
structure Upload where
  filename : String
  rows : Option DataFrame
deriving DecidableEq, Repr

/-- An HTTP error, as raised by `HTTPException(status_code, detail)` in
`backend/main.py`. -/
structure HTTPError where
  status_code : Nat
  detail : String
deriving DecidableEq, Repr

/-- A smurfing pattern: a fan-in receiver plus its contributing senders
(spec section 4.4; `backend/main.py` accesses `s["receiver"]`). -/
structure Smurf where
  receiver : String
  senders : List String
deriving DecidableEq, Repr

/-- A ring: merged member accounts plus the constituent structural patterns
(spec section 3). -/
structure Ring where
  members : List String
  patterns : List (List String)
deriving DecidableEq, Repr

/-- A scored account record, built by the loop at the end of `analyze`:
`{"account_id": acc, "suspicion_score": base_score, "detected_patterns": list(patterns)}`. -/
structure ScoredAccount where
  account_id : String
  suspicion_score : Nat
  detected_patterns : List String
deriving DecidableEq, Repr

/-- Modelled from the spec: the final payload produced by
`detectors.refinement.final_format` (missing from the snapshot).  The report
assembler "takes scored accounts + rings + metadata and produces the final
payload" (spec section 2); `analyze` passes it the scored accounts, the rings
and the wall-clock processing time, and the payload carries them. -/
structure Payload where
  suspicious_accounts : List ScoredAccount
  rings : List Ring
  processing_time : Int
deriving DecidableEq, Repr

/-- Modelled from the spec: `detectors.refinement.final_format` (missing from
the snapshot) assembles the scored accounts, rings and processing-time
metadata into the final payload. -/
def final_format (accounts : List ScoredAccount) (rings : List Ring)
    (_df : DataFrame) (processing_time : Int) : Payload :=
  ⟨accounts, rings, processing_time⟩

/-- Modelled from the spec: `detectors.validators.validate_csv` (missing from
the snapshot) returns a dictionary of per-check booleans over the parsed
table; the input contract (spec section 6) requires non-empty sender and
receiver identifiers and non-negative amounts.  `backend/main.py` consumes it
as `all(validation.values())`. -/
def validate_csv (df : DataFrame) : List Bool :=
  [df.all (fun r => r.sender ≠ ""),
   df.all (fun r => r.receiver ≠ ""),
   df.all (fun r => decide ((0 : Int) ≤ r.amount))]

/-- Modelled from the spec: the `TransactionGraph` built by
`detectors.graph_builder.build_graph` (missing from the snapshot) owns the
multiset of transfers; accounts are derived from them (spec section 3). -/
structure Graph where
  transfers : DataFrame
deriving DecidableEq, Repr

/-- Modelled from the spec: `detectors.graph_builder.build_graph` (missing
from the snapshot) turns validated rows into a transaction multigraph in one
pass; rows with sender = receiver stay in the raw transfer list but are
excluded from the adjacency used by the structural detectors (spec
section 4.1). -/
def build_graph (df : DataFrame) : Graph := ⟨df⟩

/-- Strict lexicographic comparison of character lists, the order underlying
account-id comparisons. -/
def charListLt : List Char → List Char → Bool
  | [], [] => false
  | [], _ :: _ => true
  | _ :: _, [] => false
  | a :: as, b :: bs => if a < b then true else if b < a then false else charListLt as bs

/-- Strict lexicographic comparison of account ids. -/
def strLt (a b : String) : Bool := charListLt a.data b.data

/-- Suffix test on strings, modelling Python's `str.endswith` used by the
filename check in `backend/main.py`. -/
def strEndsWith (s suffix : String) : Bool :=
  decide (suffix.data = s.data.drop (s.data.length - suffix.data.length))

/-- Insertion of a string into a sorted list, for the fixed ascending
account-id orderings the spec mandates (spec sections 4.2 and 9). -/
def insertStr (a : String) : List String → List String
  | [] => [a]
  | b :: bs => if strLt b a then b :: insertStr a bs else a :: b :: bs

/-- Sorting a list of account ids ascending. -/
def sortStr (l : List String) : List String := l.foldr insertStr []

/-- First-occurrence deduplication of a list of account ids. -/
def dedupStr (l : List String) : List String :=
  l.foldl (fun acc x => if x ∈ acc then acc else acc ++ [x]) []

/-- The accounts of the graph, sorted ascending: derived from the transfer
endpoints (spec section 3). -/
def accountsOf (g : Graph) : List String :=
  sortStr (dedupStr (g.transfers.map Row.sender ++ g.transfers.map Row.receiver))

/-- The cycle-relevant adjacency: edges with sender distinct from receiver
(spec section 3, self-loop exclusion). -/
def adjacency (g : Graph) : DataFrame :=
  g.transfers.filter (fun r => r.sender ≠ r.receiver)

/-- The distinct successors of an account in the self-loop-free adjacency,
in ascending order (the fixed edge-traversal order of spec section 4.2). -/
def succs (g : Graph) (a : String) : List String :=
  sortStr (dedupStr (((adjacency g).filter (fun r => r.sender = a)).map Row.receiver))

/-- In-degree of an account in the self-loop-free adjacency (edge count). -/
def inDeg (g : Graph) (a : String) : Nat :=
  ((adjacency g).filter (fun r => r.receiver = a)).length

/-- Out-degree of an account in the self-loop-free adjacency (edge count). -/
def outDeg (g : Graph) (a : String) : Nat :=
  ((adjacency g).filter (fun r => r.sender = a)).length

/-- Maximum cycle length bound (spec section 4.2: "configurable, default
small, e.g. 8"). -/
def maxCycleLen : Nat := 8

/-- Lexicographic comparison of account-id sequences, used to pick the
canonical rotation of a cycle. -/
def lexLt : List String → List String → Bool
  | [], [] => false
  | [], _ :: _ => true
  | _ :: _, [] => false
  | a :: as, b :: bs => if strLt a b then true else if strLt b a then false else lexLt as bs

/-- All rotations of an account sequence. -/
def rotations (l : List String) : List (List String) :=
  (List.range l.length).map (fun i => l.drop i ++ l.take i)

/-- The canonical representative of a cycle: its lexicographically smallest
rotation (spec section 4.2, rotation deduplication). -/
def canonicalCycle (l : List String) : List String :=
  (rotations l).foldl (fun best r => if lexLt r best then r else best) l

/-- First-occurrence deduplication of a list of patterns. -/
def dedupPatterns (l : List (List String)) : List (List String) :=
  l.foldl (fun acc x => if x ∈ acc then acc else acc ++ [x]) []

/-- Modelled from the spec: the bounded depth-first search of
`detectors.cycle_detector` (missing from the snapshot).  `stack ++ [cur]` is
the current path; whenever an edge reaches an account already on the path the
slice from that account to the top is emitted as a cycle, and paths longer
than the bound are abandoned (spec section 4.2). -/
def dfsCycles (g : Graph) : Nat → List String → String → List (List String)
  | 0, _, _ => []
  | fuel + 1, stack, cur =>
    (succs g cur).foldl
      (fun found v =>
        let path := stack ++ [cur]
        if v ∈ path then found ++ [path.dropWhile (fun x => x ≠ v)]
        else if maxCycleLen ≤ path.length then found
        else found ++ dfsCycles g fuel path v)
      []

/-- Modelled from the spec: `detectors.cycle_detector.detect_cycles` (missing
from the snapshot).  Depth-first search from each account in ascending order,
with cycles reduced to their canonical rotation and deduplicated (spec
section 4.2). -/
def detect_cycles (g : Graph) : List (List String) :=
  dedupPatterns
    (((accountsOf g).foldl (fun found a => found ++ dfsCycles g (maxCycleLen + 1) [] a)
        []).map canonicalCycle)

/-- Modelled from the spec: the shell-account criterion of
`detectors.shell_detector` (missing from the snapshot): in-degree and
out-degree both exactly 1 in the self-loop-free adjacency (spec
section 4.3). -/
def isShell (g : Graph) (a : String) : Bool :=
  inDeg g a = 1 && outDeg g a = 1

/-- Modelled from the spec: path extension through consecutive shell accounts
until a non-shell account, a dead end, or a revisit (the chain is an acyclic
sequence of distinct accounts, spec sections 3 and 4.3). -/
def followShell (g : Graph) : Nat → List String → String → List String
  | 0, _, a => [a]
  | fuel + 1, seen, a =>
    if isShell g a then
      match succs g a with
      | [v] => if v ∈ seen ++ [a] then [a] else a :: followShell g fuel (seen ++ [a]) v
      | _ => [a]
    else [a]

/-- Modelled from the spec: `detectors.shell_detector.detect_shell_chains`
(missing from the snapshot).  Maximal directed chains through consecutive
shell accounts, starting from a non-shell account, reported when at least 3
accounts long (spec section 4.3). -/
def detect_shell_chains (g : Graph) : List (List String) :=
  (accountsOf g).foldl
    (fun found u =>
      if isShell g u then found
      else
        (succs g u).foldl
          (fun found v =>
            if isShell g v then
              let chain := u :: followShell g ((accountsOf g).length) [u] v
              if 3 ≤ chain.length then found ++ [chain] else found
            else found)
          found)
    []

/-- Smurfing sender-count threshold (spec section 8: threshold_count = 5). -/
def thresholdCount : Nat := 5

/-- Smurfing aggregate-amount threshold (spec section 4.4, configured
volume threshold). -/
def thresholdAmount : Int := 10000

/-- The distinct receivers of the table, in ascending order (the fixed
iteration order of spec section 9). -/
def receiversOf (df : DataFrame) : List String :=
  sortStr (dedupStr (df.map Row.receiver))

/-- The distinct senders transferring to a given receiver, in row order. -/
def sendersTo (df : DataFrame) (r : String) : List String :=
  dedupStr ((df.filter (fun row => row.receiver = r)).map Row.sender)

/-- The aggregate inbound amount of a receiver. -/
def inboundAmount (df : DataFrame) (r : String) : Int :=
  ((df.filter (fun row => row.receiver = r)).map Row.amount).sum

/-- Modelled from the spec: `detectors.smurfing_detector.detect_smurfing`
(missing from the snapshot).  Rows are grouped by receiver; a receiver whose
distinct-sender count or aggregate inbound amount reaches the threshold is
emitted with all contributing senders (spec section 4.4). -/
def detect_smurfing (df : DataFrame) : List Smurf :=
  (receiversOf df).foldl
    (fun out r =>
      let ss := sendersTo df r
      if thresholdCount ≤ ss.length ∨ thresholdAmount ≤ inboundAmount df r then
        out ++ [⟨r, ss⟩]
      else out)
    []

/-- Union of two account-id lists keeping first occurrences, for ring
membership. -/
def listUnion (xs ys : List String) : List String :=
  xs ++ ys.filter (fun y => decide (y ∉ xs))

/-- The union of the member accounts of a list of rings. -/
def ringUnionMembers (rs : List Ring) : List String :=
  rs.foldl (fun m r => listUnion m r.members) []

/-- The concatenation of the constituent patterns of a list of rings. -/
def ringUnionPatterns (rs : List Ring) : List (List String) :=
  rs.foldl (fun q r => q ++ r.patterns) []

/-- Modelled from the spec: one merging step of
`detectors.ring_merger.merge_rings` (missing from the snapshot).  A new
pattern is united with every existing ring it shares an account with; the
grouping is the disjoint-set consolidation of spec section 4.5, realised as
an equivalent iterative merge. -/
def insertPattern (rings : List Ring) (p : List String) : List Ring :=
  let over := rings.filter (fun r => p.any (fun a => decide (a ∈ r.members)))
  let rest := rings.filter (fun r => !(p.any (fun a => decide (a ∈ r.members))))
  rest ++ [⟨listUnion (ringUnionMembers over) p, ringUnionPatterns over ++ [p]⟩]

/-- Modelled from the spec: `detectors.ring_merger.merge_rings` (missing from
the snapshot).  Patterns whose memberships transitively overlap are
consolidated into one ring (spec sections 3 and 4.5). -/
def merge_rings (patterns : List (List String)) : List Ring :=
  patterns.foldl insertPattern []

/-- Modelled from the spec: `detectors.scoring.score_account` (missing from
the snapshot).  A fixed monotonic table maps each pattern-type presence to a
weight (cycle high, shell medium, smurfing medium) and the score is the sum
of the weights of the distinct pattern types present (spec section 4.6). -/
def score_account (tags : List String) : Nat :=
  (if "cycle" ∈ tags then 3 else 0) + (if "shell" ∈ tags then 2 else 0) +
    (if "smurfing" ∈ tags then 2 else 0)

/-- One `account_patterns.setdefault(acc, set()).add(tag)` step of
`backend/main.py`: the dictionary is an insertion-ordered association list
(Python dict semantics) and each value is the canonical insertion-order
listing of the Python tag set. -/
def addTag : List (String × List String) → String → String → List (String × List String)
  | [], a, t => [(a, [t])]
  | (k, ts) :: rest, a, t =>
    if k = a then (k, if t ∈ ts then ts else ts ++ [t]) :: rest
    else (k, ts) :: addTag rest a t

/-- The inner loop `for acc in pattern: account_patterns.setdefault(acc, set()).add(tag)`
of `backend/main.py`. -/
def tagAll (tag : String) (m : List (String × List String)) (p : List String) :
    List (String × List String) :=
  p.foldl (fun m a => addTag m a tag) m

/-- The loop over a pattern list in `backend/main.py` (`for pattern in cycles: ...`
and `for pattern in shell: ...`). -/
def tagPatterns (tag : String) (m : List (String × List String))
    (ps : List (List String)) : List (String × List String) :=
  ps.foldl (tagAll tag) m

/-- The loop `for s in smurfing: account_patterns.setdefault(s["receiver"], set()).add("smurfing")`
of `backend/main.py`: only the receiver is tagged. -/
def tagSmurfs (m : List (String × List String)) (ss : List Smurf) :
    List (String × List String) :=
  ss.foldl (fun m s => addTag m s.receiver "smurfing") m

/-- The `account_patterns` dictionary of `backend/main.py` after the three
tagging loops: cycles first, then shell chains, then smurfing patterns. -/
def accountPatterns (cycles shell : List (List String)) (smurfs : List Smurf) :
    List (String × List String) :=
  tagSmurfs (tagPatterns "shell" (tagPatterns "cycle" [] cycles) shell) smurfs

/-- Keys of the association list modelling the Python dictionary. -/
def keys (m : List (String × List String)) : List String := m.map Prod.fst

/-- Lookup of an account's tag set in the association list (empty if
absent). -/
def lookupTags : List (String × List String) → String → List String
  | [], _ => []
  | (k, ts) :: rest, a => if k = a then ts else lookupTags rest a

/-- The `suspicious_accounts` loop of `backend/main.py`: one record per
dictionary entry, in dictionary order, scoring the tag set and listing it via
the interpreter's set-iteration order `setOrder`. -/
def suspiciousAccounts (setOrder : List String → List String)
    (cycles shell : List (List String)) (smurfs : List Smurf) :
    List ScoredAccount :=
  (accountPatterns cycles shell smurfs).map
    (fun e => ⟨e.1, score_account e.2, setOrder e.2⟩)

/-- The `/analyze` endpoint of `backend/main.py`: reject non-`.csv`
filenames, CSV parse failures and validation failures with HTTP 400;
otherwise build the graph, run the three detectors, merge the structural
patterns into rings, tag and score the accounts, and assemble the payload
with the wall-clock processing time `endTime - startTime`. -/
def analyze (u : Upload) (startTime endTime : Int)
    (setOrder : List String → List String) : Except HTTPError Payload :=
  if strEndsWith u.filename ".csv" then
    match u.rows with
    | none => .error ⟨400, "Invalid CSV format"⟩
    | some df =>
      if (validate_csv df).all id then
        let g := build_graph df
        let cycles := detect_cycles g
        let smurfing := detect_smurfing df
        let shell := detect_shell_chains g
        let rings := merge_rings (cycles ++ shell)
        let accounts := suspiciousAccounts setOrder cycles shell smurfing
        .ok (final_format accounts rings df (endTime - startTime))
      else .error ⟨400, "CSV validation failed"⟩
  else .error ⟨400, "Only CSV files allowed"⟩

end MuleCatcher

deriving instance DecidableEq for Except

namespace MuleCatcher

/-- Concrete upload mixing a two-account cycle with a five-sender fan-in on
the same receiver, used to exercise the pipeline. -/
def uploadMixed : Upload :=
  ⟨"t.csv", some [⟨"A", "E", 10, 1⟩, ⟨"E", "A", 10, 2⟩, ⟨"D", "E", 50, 3⟩,
    ⟨"F", "E", 50, 4⟩, ⟨"G", "E", 50, 5⟩, ⟨"H", "E", 50, 6⟩, ⟨"I", "E", 50, 7⟩]⟩

/-- Concrete upload with a single transfer, used to exercise the pipeline. -/
def uploadSingle : Upload := ⟨"t.csv", some [⟨"A", "B", 10, 1⟩]⟩

/-- Concrete upload with a two-account cycle, used to exercise the
pipeline. -/
def uploadCycle : Upload := ⟨"t.csv", some [⟨"A", "B", 10, 1⟩, ⟨"B", "A", 10, 2⟩]⟩

theorem lookupTags_addTag_self (m : List (String × List String)) (a t : String) :
    lookupTags (addTag m a t) a =
      if t ∈ lookupTags m a then lookupTags m a else lookupTags m a ++ [t] := by
  induction m with
  | nil => simp [addTag, lookupTags]
  | cons e rest ih =>
    obtain ⟨k, ts⟩ := e
    by_cases hk : k = a
    · subst hk
      simp [addTag, lookupTags]
    · simp [addTag, lookupTags, hk, ih]

theorem lookupTags_addTag_ne (m : List (String × List String)) (a b t : String)
    (h : b ≠ a) : lookupTags (addTag m a t) b = lookupTags m b := by
  induction m with
  | nil => simp [addTag, lookupTags, Ne.symm h]
  | cons e rest ih =>
    obtain ⟨k, ts⟩ := e
    by_cases hk : k = a
    · subst hk
      simp [addTag, lookupTags, Ne.symm h]
    · simp [addTag, lookupTags, hk, ih]

theorem mem_lookupTags_addTag (m : List (String × List String)) (a b t t' : String) :
    t' ∈ lookupTags (addTag m a t) b ↔
      t' ∈ lookupTags m b ∨ (b = a ∧ t' = t) := by
  by_cases hb : b = a
  · subst hb
    rw [lookupTags_addTag_self]
    split <;> rename_i hmem
    · constructor
      · exact fun h => Or.inl h
      · rintro (h | ⟨-, rfl⟩)
        · exact h
        · exact hmem
    · simp only [List.mem_append, List.mem_singleton]
      tauto
  · rw [lookupTags_addTag_ne m a b t hb]
    simp [hb]

theorem mem_lookupTags_tagAll (tag : String) (m : List (String × List String))
    (p : List String) (b t' : String) :
    t' ∈ lookupTags (tagAll tag m p) b ↔
      t' ∈ lookupTags m b ∨ (t' = tag ∧ b ∈ p) := by
  induction p generalizing m with
  | nil => simp [tagAll]
  | cons a p ih =>
    show t' ∈ lookupTags (tagAll tag (addTag m a tag) p) b ↔ _
    rw [ih, mem_lookupTags_addTag]
    simp only [List.mem_cons]
    tauto

theorem mem_lookupTags_tagPatterns (tag : String) (m : List (String × List String))
    (ps : List (List String)) (b t' : String) :
    t' ∈ lookupTags (tagPatterns tag m ps) b ↔
      t' ∈ lookupTags m b ∨ (t' = tag ∧ ∃ p ∈ ps, b ∈ p) := by
  induction ps generalizing m with
  | nil => simp [tagPatterns]
  | cons p ps ih =>
    show t' ∈ lookupTags (tagPatterns tag (tagAll tag m p) ps) b ↔ _
    rw [ih, mem_lookupTags_tagAll]
    simp only [List.mem_cons]
    constructor
    · rintro ((h | ⟨rfl, hp⟩) | ⟨rfl, q, hq, hb⟩)
      · exact Or.inl h
      · exact Or.inr ⟨rfl, p, Or.inl rfl, hp⟩
      · exact Or.inr ⟨rfl, q, Or.inr hq, hb⟩
    · rintro (h | ⟨rfl, q, (rfl | hq), hb⟩)
      · exact Or.inl (Or.inl h)
      · exact Or.inl (Or.inr ⟨rfl, hb⟩)
      · exact Or.inr ⟨rfl, q, hq, hb⟩

theorem mem_lookupTags_tagSmurfs (m : List (String × List String))
    (ss : List Smurf) (b t' : String) :
    t' ∈ lookupTags (tagSmurfs m ss) b ↔
      t' ∈ lookupTags m b ∨ (t' = "smurfing" ∧ ∃ s ∈ ss, b = s.receiver) := by
  induction ss generalizing m with
  | nil => simp [tagSmurfs]
  | cons s ss ih =>
    show t' ∈ lookupTags (tagSmurfs (addTag m s.receiver "smurfing") ss) b ↔ _
    rw [ih, mem_lookupTags_addTag]
    simp only [List.mem_cons]
    constructor
    · rintro ((h | ⟨hb, rfl⟩) | ⟨rfl, q, hq, hb⟩)
      · exact Or.inl h
      · exact Or.inr ⟨rfl, s, Or.inl rfl, hb⟩
      · exact Or.inr ⟨rfl, q, Or.inr hq, hb⟩
    · rintro (h | ⟨rfl, q, (rfl | hq), hb⟩)
      · exact Or.inl (Or.inl h)
      · exact Or.inl (Or.inr ⟨hb, rfl⟩)
      · exact Or.inr ⟨rfl, q, hq, hb⟩

theorem mem_lookupTags_accountPatterns (cycles shell : List (List String))
    (smurfs : List Smurf) (b t' : String) :
    t' ∈ lookupTags (accountPatterns cycles shell smurfs) b ↔
      (t' = "cycle" ∧ ∃ p ∈ cycles, b ∈ p) ∨
      (t' = "shell" ∧ ∃ p ∈ shell, b ∈ p) ∨
      (t' = "smurfing" ∧ ∃ s ∈ smurfs, b = s.receiver) := by
  unfold accountPatterns
  rw [mem_lookupTags_tagSmurfs, mem_lookupTags_tagPatterns, mem_lookupTags_tagPatterns]
  simp only [lookupTags, List.not_mem_nil, false_or, or_assoc]

theorem keys_addTag (m : List (String × List String)) (a t : String) :
    keys (addTag m a t) = if a ∈ keys m then keys m else keys m ++ [a] := by
  induction m with
  | nil => simp [addTag, keys]
  | cons e rest ih =>
    obtain ⟨k, ts⟩ := e
    by_cases hk : k = a
    · subst hk
      simp [addTag, keys]
    · simp only [addTag, if_neg hk, keys, List.map_cons]
      have ih' : List.map Prod.fst (addTag rest a t) =
          if a ∈ List.map Prod.fst rest then List.map Prod.fst rest
          else List.map Prod.fst rest ++ [a] := ih
      rw [ih']
      have hak : ¬ a = k := fun h => hk h.symm
      by_cases ha : a ∈ List.map Prod.fst rest <;> simp [ha, hak]

theorem mem_keys_addTag (m : List (String × List String)) (a b t : String) :
    b ∈ keys (addTag m a t) ↔ b ∈ keys m ∨ b = a := by
  rw [keys_addTag]
  split <;> rename_i h
  · constructor
    · exact fun hb => Or.inl hb
    · rintro (hb | rfl)
      · exact hb
      · exact h
  · simp

theorem nodup_keys_addTag (m : List (String × List String)) (a t : String)
    (h : (keys m).Nodup) : (keys (addTag m a t)).Nodup := by
  rw [keys_addTag]
  split <;> rename_i ha
  · exact h
  · simp [List.nodup_append, h, ha]

theorem mem_keys_tagAll (tag : String) (m : List (String × List String))
    (p : List String) (b : String) :
    b ∈ keys (tagAll tag m p) ↔ b ∈ keys m ∨ b ∈ p := by
  induction p generalizing m with
  | nil => simp [tagAll]
  | cons a p ih =>
    show b ∈ keys (tagAll tag (addTag m a tag) p) ↔ _
    rw [ih, mem_keys_addTag]
    simp only [List.mem_cons]
    tauto

theorem nodup_keys_tagAll (tag : String) (m : List (String × List String))
    (p : List String) (h : (keys m).Nodup) : (keys (tagAll tag m p)).Nodup := by
  induction p generalizing m with
  | nil => exact h
  | cons a p ih => exact ih (addTag m a tag) (nodup_keys_addTag m a tag h)

theorem mem_keys_tagPatterns (tag : String) (m : List (String × List String))
    (ps : List (List String)) (b : String) :
    b ∈ keys (tagPatterns tag m ps) ↔ b ∈ keys m ∨ ∃ p ∈ ps, b ∈ p := by
  induction ps generalizing m with
  | nil => simp [tagPatterns]
  | cons p ps ih =>
    show b ∈ keys (tagPatterns tag (tagAll tag m p) ps) ↔ _
    rw [ih, mem_keys_tagAll]
    simp only [List.mem_cons]
    constructor
    · rintro ((h | hp) | ⟨q, hq, hb⟩)
      · exact Or.inl h
      · exact Or.inr ⟨p, Or.inl rfl, hp⟩
      · exact Or.inr ⟨q, Or.inr hq, hb⟩
    · rintro (h | ⟨q, (rfl | hq), hb⟩)
      · exact Or.inl (Or.inl h)
      · exact Or.inl (Or.inr hb)
      · exact Or.inr ⟨q, hq, hb⟩

theorem nodup_keys_tagPatterns (tag : String) (m : List (String × List String))
    (ps : List (List String)) (h : (keys m).Nodup) :
    (keys (tagPatterns tag m ps)).Nodup := by
  induction ps generalizing m with
  | nil => exact h
  | cons p ps ih => exact ih (tagAll tag m p) (nodup_keys_tagAll tag m p h)

theorem mem_keys_tagSmurfs (m : List (String × List String)) (ss : List Smurf)
    (b : String) :
    b ∈ keys (tagSmurfs m ss) ↔ b ∈ keys m ∨ ∃ s ∈ ss, b = s.receiver := by
  induction ss generalizing m with
  | nil => simp [tagSmurfs]
  | cons s ss ih =>
    show b ∈ keys (tagSmurfs (addTag m s.receiver "smurfing") ss) ↔ _
    rw [ih, mem_keys_addTag]
    simp only [List.mem_cons]
    constructor
    · rintro ((h | hb) | ⟨q, hq, hb⟩)
      · exact Or.inl h
      · exact Or.inr ⟨s, Or.inl rfl, hb⟩
      · exact Or.inr ⟨q, Or.inr hq, hb⟩
    · rintro (h | ⟨q, (rfl | hq), hb⟩)
      · exact Or.inl (Or.inl h)
      · exact Or.inl (Or.inr hb)
      · exact Or.inr ⟨q, hq, hb⟩

theorem nodup_keys_tagSmurfs (m : List (String × List String)) (ss : List Smurf)
    (h : (keys m).Nodup) : (keys (tagSmurfs m ss)).Nodup := by
  induction ss generalizing m with
  | nil => exact h
  | cons s ss ih => exact ih (addTag m s.receiver "smurfing") (nodup_keys_addTag _ _ _ h)

theorem mem_keys_accountPatterns (cycles shell : List (List String))
    (smurfs : List Smurf) (b : String) :
    b ∈ keys (accountPatterns cycles shell smurfs) ↔
      (∃ p ∈ cycles, b ∈ p) ∨ (∃ p ∈ shell, b ∈ p) ∨ ∃ s ∈ smurfs, b = s.receiver := by
  unfold accountPatterns
  rw [mem_keys_tagSmurfs, mem_keys_tagPatterns, mem_keys_tagPatterns]
  simp only [keys, List.map_nil, List.not_mem_nil, false_or, or_assoc]

theorem nodup_keys_accountPatterns (cycles shell : List (List String))
    (smurfs : List Smurf) : (keys (accountPatterns cycles shell smurfs)).Nodup := by
  unfold accountPatterns
  exact nodup_keys_tagSmurfs _ _ (nodup_keys_tagPatterns _ _ _
    (nodup_keys_tagPatterns _ _ _ (by simp [keys])))

theorem lookupTags_eq_of_mem (m : List (String × List String)) (a : String)
    (ts : List String) (hnd : (keys m).Nodup) (h : (a, ts) ∈ m) :
    lookupTags m a = ts := by
  induction m with
  | nil => cases h
  | cons e rest ih =>
    obtain ⟨k, vs⟩ := e
    simp only [keys, List.map_cons, List.nodup_cons] at hnd
    rcases List.mem_cons.mp h with he | he
    · obtain ⟨rfl, rfl⟩ := Prod.mk.injEq .. ▸ he
      simp [lookupTags]
    · have hka : k ≠ a := by
        rintro rfl
        exact hnd.1 (List.mem_map.mpr ⟨(k, ts), he, rfl⟩)
      simp [lookupTags, hka, ih hnd.2 he]

theorem mem_listUnion (a : String) (xs ys : List String) :
    a ∈ listUnion xs ys ↔ a ∈ xs ∨ a ∈ ys := by
  simp only [listUnion, List.mem_append, List.mem_filter, decide_eq_true_eq]
  tauto

theorem mem_ringUnionMembers_aux (a : String) (rs : List Ring) (init : List String) :
    a ∈ rs.foldl (fun m r => listUnion m r.members) init ↔
      a ∈ init ∨ ∃ r ∈ rs, a ∈ r.members := by
  induction rs generalizing init with
  | nil => simp
  | cons r rs ih =>
    show a ∈ rs.foldl _ (listUnion init r.members) ↔ _
    rw [ih, mem_listUnion]
    simp only [List.mem_cons]
    constructor
    · rintro ((h | h) | ⟨q, hq, hb⟩)
      · exact Or.inl h
      · exact Or.inr ⟨r, Or.inl rfl, h⟩
      · exact Or.inr ⟨q, Or.inr hq, hb⟩
    · rintro (h | ⟨q, (rfl | hq), hb⟩)
      · exact Or.inl (Or.inl h)
      · exact Or.inl (Or.inr hb)
      · exact Or.inr ⟨q, hq, hb⟩

theorem insertPattern_members_sub (C : String → Prop) (rings : List Ring)
    (p : List String) (hr : ∀ r ∈ rings, ∀ a ∈ r.members, C a)
    (hp : ∀ a ∈ p, C a) :
    ∀ r ∈ insertPattern rings p, ∀ a ∈ r.members, C a := by
  intro r hmem a ha
  unfold insertPattern at hmem
  rcases List.mem_append.mp hmem with h | h
  · exact hr r (List.mem_filter.mp h).1 a ha
  · rcases List.mem_singleton.mp h with rfl
    rcases (mem_listUnion a _ p).mp ha with h' | h'
    · rcases (mem_ringUnionMembers_aux a _ []).mp h' with h'' | ⟨q, hq, hb⟩
      · cases h''
      · exact hr q (List.mem_filter.mp hq).1 a hb
    · exact hp a h'

theorem foldl_insertPattern_sub (C : String → Prop) (ps : List (List String))
    (acc : List Ring) (hacc : ∀ r ∈ acc, ∀ a ∈ r.members, C a)
    (hps : ∀ p ∈ ps, ∀ a ∈ p, C a) :
    ∀ r ∈ ps.foldl insertPattern acc, ∀ a ∈ r.members, C a := by
  induction ps generalizing acc with
  | nil => exact hacc
  | cons p ps ih =>
    exact ih (insertPattern acc p)
      (insertPattern_members_sub C acc p hacc (hps p (List.mem_cons_self p ps)))
      (fun q hq => hps q (List.mem_cons_of_mem p hq))

theorem merge_rings_members_sub (ps : List (List String)) (r : Ring) (a : String)
    (hr : r ∈ merge_rings ps) (ha : a ∈ r.members) : ∃ p ∈ ps, a ∈ p := by
  exact foldl_insertPattern_sub (fun a => ∃ p ∈ ps, a ∈ p) ps []
    (by intro r h; cases h) (fun p hp a hap => ⟨p, hp, hap⟩) r hr a ha

theorem analyze_ok_of_valid (u : Upload) (df : DataFrame) (t1 t2 : Int)
    (σ : List String → List String) (hcsv : strEndsWith u.filename ".csv" = true)
    (hrows : u.rows = some df) (hv : (validate_csv df).all id = true) :
    analyze u t1 t2 σ = .ok (final_format
      (suspiciousAccounts σ (detect_cycles (build_graph df))
        (detect_shell_chains (build_graph df)) (detect_smurfing df))
      (merge_rings (detect_cycles (build_graph df) ++ detect_shell_chains (build_graph df)))
      df (t2 - t1)) := by
  simp [analyze, hcsv, hrows, hv]

theorem analyze_ok_inv (u : Upload) (df : DataFrame) (t1 t2 : Int)
    (σ : List String → List String) (p : Payload) (hrows : u.rows = some df)
    (h : analyze u t1 t2 σ = .ok p) :
    p = final_format
      (suspiciousAccounts σ (detect_cycles (build_graph df))
        (detect_shell_chains (build_graph df)) (detect_smurfing df))
      (merge_rings (detect_cycles (build_graph df) ++ detect_shell_chains (build_graph df)))
      df (t2 - t1) := by
  by_cases hcsv : strEndsWith u.filename ".csv" = true
  · by_cases hv : (validate_csv df).all id = true
    · rw [analyze_ok_of_valid u df t1 t2 σ hcsv hrows hv] at h
      exact (Except.ok.inj h).symm
    · rw [Bool.not_eq_true] at hv
      simp [analyze, hrows, hcsv, hv] at h
  · rw [Bool.not_eq_true] at hcsv
    simp [analyze, hrows, hcsv] at h

/-- C1: the claimed determinism of the full pipeline fails on the code.  On
`uploadMixed` the account E carries the tag set {cycle, smurfing}, and
`list(patterns)` at line 76 of `backend/main.py` linearises that Python set in
the interpreter's hash-dependent iteration order, so two legitimate
linearisations of the same set (here the identity and the reversal, a
permutation of the same two tags) give different outputs.  Independently, the
wall-clock `processing_time` of lines 35 and 79 flows into the payload, so
two runs of `uploadSingle` at different instants differ as well. -/
theorem c1_pipeline_output_not_input_determined :
    analyze uploadMixed 0 0 (fun l => l) ≠ analyze uploadMixed 0 0 List.reverse ∧
    analyze uploadSingle 0 1 (fun l => l) ≠ analyze uploadSingle 0 2 (fun l => l) ∧
    (List.reverse ["cycle", "smurfing"]).Perm ["cycle", "smurfing"] := by
  decide

/-- C2: the ring merger is fed only the cycle and shell-chain patterns
(`merge_rings(cycles + shell)` at line 55 of `backend/main.py`), and
membership of every ring it produces comes from those patterns, so smurfing
patterns never contribute an account to any ring. -/
theorem c2_smurfing_never_contributes_to_rings (u : Upload) (df : DataFrame)
    (t1 t2 : Int) (σ : List String → List String) (p : Payload) (r : Ring)
    (a : String) (hrows : u.rows = some df) (h : analyze u t1 t2 σ = .ok p)
    (hr : r ∈ p.rings) (ha : a ∈ r.members) :
    ∃ q, (q ∈ detect_cycles (build_graph df) ∨
      q ∈ detect_shell_chains (build_graph df)) ∧ a ∈ q := by
  rw [analyze_ok_inv u df t1 t2 σ p hrows h] at hr
  obtain ⟨q, hq, haq⟩ := merge_rings_members_sub _ r a hr ha
  exact ⟨q, List.mem_append.mp hq, haq⟩

theorem c2_witness :
    ∃ q, (q ∈ detect_cycles (build_graph [⟨"A", "B", 10, 1⟩, ⟨"B", "A", 10, 2⟩]) ∨
      q ∈ detect_shell_chains (build_graph [⟨"A", "B", 10, 1⟩, ⟨"B", "A", 10, 2⟩])) ∧
      "A" ∈ q :=
  c2_smurfing_never_contributes_to_rings uploadCycle
    [⟨"A", "B", 10, 1⟩, ⟨"B", "A", 10, 2⟩] 0 0 (fun l => l)
    ⟨[⟨"A", 3, ["cycle"]⟩, ⟨"B", 3, ["cycle"]⟩], [⟨["A", "B"], [["A", "B"]]⟩], 0⟩
    ⟨["A", "B"], [["A", "B"]]⟩ "A" rfl (by decide) (by decide) (by decide)

/-- C3: a scored-account record carries the "smurfing" tag exactly when the
account is the receiver of some emitted smurfing pattern, and an account that
is not such a receiver appears in the output only because some cycle or shell
pattern contains it (lines 67 and 68 of `backend/main.py` tag only
`s["receiver"]`). -/
theorem c3_smurfing_tags_only_receiver (σ : List String → List String)
    (hσ : ∀ l, (σ l).Perm l) (cycles shell : List (List String))
    (smurfs : List Smurf) (sa : ScoredAccount)
    (h : sa ∈ suspiciousAccounts σ cycles shell smurfs) :
    ("smurfing" ∈ sa.detected_patterns ↔ ∃ s ∈ smurfs, sa.account_id = s.receiver) ∧
    ((∀ s ∈ smurfs, sa.account_id ≠ s.receiver) →
      ∃ p, (p ∈ cycles ∨ p ∈ shell) ∧ sa.account_id ∈ p) := by
  obtain ⟨⟨a, ts⟩, hmem, rfl⟩ := List.mem_map.mp h
  have hts : lookupTags (accountPatterns cycles shell smurfs) a = ts :=
    lookupTags_eq_of_mem _ a ts (nodup_keys_accountPatterns cycles shell smurfs) hmem
  have hne1 : ("smurfing" : String) ≠ "cycle" := by decide
  have hne2 : ("smurfing" : String) ≠ "shell" := by decide
  constructor
  · show "smurfing" ∈ σ ts ↔ _
    rw [(hσ ts).mem_iff, ← hts, mem_lookupTags_accountPatterns]
    simp [hne1, hne2]
  · intro hnot
    have hk : a ∈ keys (accountPatterns cycles shell smurfs) :=
      List.mem_map.mpr ⟨(a, ts), hmem, rfl⟩
    rcases (mem_keys_accountPatterns cycles shell smurfs a).mp hk with
      ⟨p, hp, hap⟩ | ⟨p, hp, hap⟩ | ⟨s, hs, has⟩
    · exact ⟨p, Or.inl hp, hap⟩
    · exact ⟨p, Or.inr hp, hap⟩
    · exact absurd has (hnot s hs)

theorem c3_witness :
    ("smurfing" ∈ (ScoredAccount.mk "E" 2 ["smurfing"]).detected_patterns ↔
      ∃ s ∈ [Smurf.mk "E" ["D", "F"]],
        (ScoredAccount.mk "E" 2 ["smurfing"]).account_id = s.receiver) ∧
    ((∀ s ∈ [Smurf.mk "E" ["D", "F"]],
        (ScoredAccount.mk "E" 2 ["smurfing"]).account_id ≠ s.receiver) →
      ∃ p, (p ∈ ([] : List (List String)) ∨ p ∈ ([] : List (List String))) ∧
        (ScoredAccount.mk "E" 2 ["smurfing"]).account_id ∈ p) :=
  c3_smurfing_tags_only_receiver (fun l => l) (fun l => List.Perm.refl l)
    [] [] [Smurf.mk "E" ["D", "F"]] (ScoredAccount.mk "E" 2 ["smurfing"]) (by decide)

/-- C4: on validated input the pipeline always returns a result, and when the
three detectors find nothing the result simply carries empty lists; no error
is raised on "no findings" (lines 49 to 81 of `backend/main.py`). -/
theorem c4_no_findings_is_ok (u : Upload) (df : DataFrame) (t1 t2 : Int)
    (σ : List String → List String) (hcsv : strEndsWith u.filename ".csv" = true)
    (hrows : u.rows = some df) (hv : (validate_csv df).all id = true) :
    ∃ p : Payload, analyze u t1 t2 σ = .ok p ∧
      (detect_cycles (build_graph df) = [] → detect_shell_chains (build_graph df) = [] →
        detect_smurfing df = [] → p.suspicious_accounts = [] ∧ p.rings = []) := by
  refine ⟨_, analyze_ok_of_valid u df t1 t2 σ hcsv hrows hv, ?_⟩
  intro hc hs hm
  rw [hc, hs, hm]
  exact ⟨rfl, rfl⟩

theorem c4_witness :
    ∃ p : Payload, analyze ⟨"t.csv", some []⟩ 0 5 (fun l => l) = .ok p ∧
      (detect_cycles (build_graph []) = [] → detect_shell_chains (build_graph []) = [] →
        detect_smurfing [] = [] → p.suspicious_accounts = [] ∧ p.rings = []) :=
  c4_no_findings_is_ok ⟨"t.csv", some []⟩ [] 0 5 (fun l => l) (by decide) rfl (by decide)

/-- C5: the account score is a pure function of the tag set: two tag listings
with the same members always receive the same score, with no dependence on
listing order, history or other accounts. -/
theorem c5_score_depends_only_on_tag_set (ts1 ts2 : List String)
    (h : ∀ t, t ∈ ts1 ↔ t ∈ ts2) : score_account ts1 = score_account ts2 := by
  simp [score_account, h]

theorem c5_witness :
    (∀ t : String, t ∈ (["cycle", "shell"] : List String) ↔
      t ∈ (["shell", "cycle"] : List String)) ∧
    score_account ["cycle", "shell"] = score_account ["shell", "cycle"] := by
  have h : ∀ t : String, t ∈ (["cycle", "shell"] : List String) ↔
      t ∈ (["shell", "cycle"] : List String) := by
    intro t
    simp only [List.mem_cons, List.not_mem_nil, or_false]
    exact or_comm
  exact ⟨h, c5_score_depends_only_on_tag_set _ _ h⟩

/-- C6: scoring is strictly monotonic and order-independent on the concrete
tag sets of the claim: {cycle, shell} scores strictly above {cycle} alone,
and {shell, cycle} scores the same as {cycle, shell}. -/
theorem c6_score_monotone_order_independent :
    score_account ["cycle"] < score_account ["cycle", "shell"] ∧
    score_account ["shell", "cycle"] = score_account ["cycle", "shell"] := by
  decide

/-- C7: ring merging is transitive over shared accounts: P1 = [A,B,C] and
P2 = [C,D,E] merge into a single ring with members A,B,C,D,E while the
disjoint P3 = [X,Y] stays a separate ring. -/
theorem c7_ring_merge_transitive :
    (merge_rings [["A", "B", "C"], ["C", "D", "E"], ["X", "Y"]]).map Ring.members =
      [["A", "B", "C", "D", "E"], ["X", "Y"]] ∧
    (merge_rings [["A", "B", "C"], ["C", "D", "E"], ["X", "Y"]]).map Ring.patterns =
      [[["A", "B", "C"], ["C", "D", "E"]], [["X", "Y"]]] := by
  decide

/-- C8: every scored-account record carries an account id, a numeric score
and a tag listing, the tags always drawn from {"cycle", "shell", "smurfing"}
and the score computed by `score_account` from the underlying tag set. -/
theorem c8_tags_subset_of_known_kinds (σ : List String → List String)
    (hσ : ∀ l, (σ l).Perm l) (cycles shell : List (List String))
    (smurfs : List Smurf) (sa : ScoredAccount)
    (h : sa ∈ suspiciousAccounts σ cycles shell smurfs) :
    (∀ t ∈ sa.detected_patterns, t = "cycle" ∨ t = "shell" ∨ t = "smurfing") ∧
    ∃ tags, sa.suspicion_score = score_account tags ∧ sa.detected_patterns = σ tags := by
  obtain ⟨⟨a, ts⟩, hmem, rfl⟩ := List.mem_map.mp h
  have hts : lookupTags (accountPatterns cycles shell smurfs) a = ts :=
    lookupTags_eq_of_mem _ a ts (nodup_keys_accountPatterns cycles shell smurfs) hmem
  refine ⟨?_, ts, rfl, rfl⟩
  intro t ht
  have htts : t ∈ ts := (hσ ts).mem_iff.mp ht
  rw [← hts] at htts
  rcases (mem_lookupTags_accountPatterns cycles shell smurfs a t).mp htts with
    ⟨h1, -⟩ | ⟨h1, -⟩ | ⟨h1, -⟩
  · exact Or.inl h1
  · exact Or.inr (Or.inl h1)
  · exact Or.inr (Or.inr h1)

theorem c8_witness :
    (∀ t ∈ (ScoredAccount.mk "A" 3 ["cycle"]).detected_patterns,
      t = "cycle" ∨ t = "shell" ∨ t = "smurfing") ∧
    ∃ tags, (ScoredAccount.mk "A" 3 ["cycle"]).suspicion_score = score_account tags ∧
      (ScoredAccount.mk "A" 3 ["cycle"]).detected_patterns = (fun l => l) tags :=
  c8_tags_subset_of_known_kinds (fun l => l) (fun l => List.Perm.refl l)
    [["A", "B"]] [] [] (ScoredAccount.mk "A" 3 ["cycle"]) (by decide)

/-- C9: in the scored-account output every account id appears at most once,
and each record's tag listing is non-empty and holds exactly the union of
contributions of the patterns the account belongs to. -/
theorem c9_accounts_unique_tags_exact_union (σ : List String → List String)
    (hσ : ∀ l, (σ l).Perm l) (cycles shell : List (List String))
    (smurfs : List Smurf) :
    ((suspiciousAccounts σ cycles shell smurfs).map ScoredAccount.account_id).Nodup ∧
    ∀ sa ∈ suspiciousAccounts σ cycles shell smurfs,
      sa.detected_patterns ≠ [] ∧
      ∀ t, t ∈ sa.detected_patterns ↔
        ((t = "cycle" ∧ ∃ p ∈ cycles, sa.account_id ∈ p) ∨
         (t = "shell" ∧ ∃ p ∈ shell, sa.account_id ∈ p) ∨
         (t = "smurfing" ∧ ∃ s ∈ smurfs, sa.account_id = s.receiver)) := by
  constructor
  · have hkeys : (suspiciousAccounts σ cycles shell smurfs).map ScoredAccount.account_id =
        keys (accountPatterns cycles shell smurfs) := by
      simp [suspiciousAccounts, keys, List.map_map]
    rw [hkeys]
    exact nodup_keys_accountPatterns cycles shell smurfs
  · intro sa h
    obtain ⟨⟨a, ts⟩, hmem, rfl⟩ := List.mem_map.mp h
    have hts : lookupTags (accountPatterns cycles shell smurfs) a = ts :=
      lookupTags_eq_of_mem _ a ts (nodup_keys_accountPatterns cycles shell smurfs) hmem
    constructor
    · show σ ts ≠ []
      have hk : a ∈ keys (accountPatterns cycles shell smurfs) :=
        List.mem_map.mpr ⟨(a, ts), hmem, rfl⟩
      have : ∃ t, t ∈ ts := by
        rcases (mem_keys_accountPatterns cycles shell smurfs a).mp hk with
          ⟨p, hp, hap⟩ | ⟨p, hp, hap⟩ | ⟨s, hs, has⟩
        · exact ⟨"cycle", hts ▸ (mem_lookupTags_accountPatterns cycles shell smurfs a
            "cycle").mpr (Or.inl ⟨rfl, p, hp, hap⟩)⟩
        · exact ⟨"shell", hts ▸ (mem_lookupTags_accountPatterns cycles shell smurfs a
            "shell").mpr (Or.inr (Or.inl ⟨rfl, p, hp, hap⟩))⟩
        · exact ⟨"smurfing", hts ▸ (mem_lookupTags_accountPatterns cycles shell smurfs a
            "smurfing").mpr (Or.inr (Or.inr ⟨rfl, s, hs, has⟩))⟩
      obtain ⟨t, htts⟩ := this
      exact List.ne_nil_of_mem ((hσ ts).mem_iff.mpr htts)
    · intro t
      show t ∈ σ ts ↔ _
      rw [(hσ ts).mem_iff, ← hts, mem_lookupTags_accountPatterns]

theorem c9_witness :
    ((suspiciousAccounts (fun l => l) [["A", "B"]] [] [Smurf.mk "E" ["D"]]).map
      ScoredAccount.account_id).Nodup ∧
    ∀ sa ∈ suspiciousAccounts (fun l => l) [["A", "B"]] [] [Smurf.mk "E" ["D"]],
      sa.detected_patterns ≠ [] ∧
      ∀ t, t ∈ sa.detected_patterns ↔
        ((t = "cycle" ∧ ∃ p ∈ [["A", "B"]], sa.account_id ∈ p) ∨
         (t = "shell" ∧ ∃ p ∈ ([] : List (List String)), sa.account_id ∈ p) ∨
         (t = "smurfing" ∧ ∃ s ∈ [Smurf.mk "E" ["D"]], sa.account_id = s.receiver)) :=
  c9_accounts_unique_tags_exact_union (fun l => l) (fun l => List.Perm.refl l)
    [["A", "B"]] [] [Smurf.mk "E" ["D"]]

/-- C10: the `/analyze` endpoint rejects uploads whose filename does not end
in ".csv", whose content fails CSV parsing, or whose table fails
`validate_csv`, with an HTTP 400 error and no analysis output (lines 37 to 49
of `backend/main.py`; the guard clauses precede every detector call, and the
error result carries no partial analysis). -/
theorem c10_invalid_input_rejected_400 (u : Upload) (t1 t2 : Int)
    (σ : List String → List String)
    (h : strEndsWith u.filename ".csv" = false ∨ u.rows = none ∨
      ∃ df, u.rows = some df ∧ (validate_csv df).all id = false) :
    ∃ d, analyze u t1 t2 σ = .error ⟨400, d⟩ := by
  rcases h with h1 | h2 | ⟨df, hdf, hv⟩
  · exact ⟨"Only CSV files allowed", by simp [analyze, h1]⟩
  · cases hcsv : strEndsWith u.filename ".csv"
    · exact ⟨"Only CSV files allowed", by simp [analyze, hcsv]⟩
    · exact ⟨"Invalid CSV format", by simp [analyze, hcsv, h2]⟩
  · cases hcsv : strEndsWith u.filename ".csv"
    · exact ⟨"Only CSV files allowed", by simp [analyze, hcsv]⟩
    · exact ⟨"CSV validation failed", by simp [analyze, hcsv, hdf, hv]⟩

theorem c10_witness :
    ∃ d, analyze ⟨"upload.txt", some []⟩ 0 0 (fun l => l) = .error ⟨400, d⟩ :=
  c10_invalid_input_rejected_400 ⟨"upload.txt", some []⟩ 0 0 (fun l => l)
    (Or.inl (by decide))

end MuleCatcher
